import Mathlib

/-!
Shallow embedding of the `securityrules` Go package (projecttoyger/securityrules).

The repository ships two historical variants of the data model:
* the engine variant (`engine.go`, `rule.go`, `context.go`, `errors.go`):
  `Rule` with unexported fields and `interface{}`-valued conditions, the
  `Engine` with `AddRule` / `IsAllowed`, built-in `userRole` /
  `resourceOwner` condition handling hardcoded in `evaluateRule`;
* the structured variant (second part of `rule.go` and the unnamed
  `Condition` file): `Rule` / `Condition` with exported fields and custom
  JSON (un)marshalling.

Both are embedded below: the engine variant at top level, the structured
(JSON) variant inside namespace `Structured`.

Modelling conventions:
* Go `interface{}` values are modelled by the inductive `GoVal`, restricted
  to the dynamic shapes the package and its documentation traffic in
  (string, `[]string`, bool, nil, `[]interface{}`, `map[string]interface{}`).
  Numeric values are outside the model; no claim mentions them.
* Go maps are modelled as insertion-ordered association lists; lookups are
  by key, so ordering is irrelevant to every property proved here.
* A Go runtime panic (nil-pointer dereference, failed single-return type
  assertion such as `requiredRole.(string)`, comparison of uncomparable
  interface values) is modelled by `Option`: `none` means the call panics
  and never returns, `some r` means it returns `r`.
* A Go `error` result is `Option SecErr`: `none` is `nil`.
-/

/-- Go `interface{}` values occurring in contexts and condition values. -/
inductive GoVal where
  | str (s : String)
  | strList (l : List String)
  | bool (b : Bool)
  | null
  | ifaceList (l : List GoVal)
  | objVal (l : List (String × GoVal))

/-- Effect is a Go string type (`type Effect string`), from `rule.go`. -/
def Effect : Type := String

instance : BEq Effect := inferInstanceAs (BEq String)
instance : DecidableEq Effect := inferInstanceAs (DecidableEq String)

/-- `Allow Effect = "allow"` from `rule.go`. -/
def Allow : Effect := "allow"

/-- `Deny Effect = "deny"` from `rule.go`. -/
def Deny : Effect := "deny"

/-- The error values of `errors.go` that the engine variant can produce,
identified by their Go dynamic type and message. -/
inductive SecErr where
  | invalidRule (msg : String)
  | invalidContext (msg : String)
  | invalidCondition (msg : String)
  | evaluation (msg : String)
deriving DecidableEq

/-- `IsInvalidRuleError` from `errors.go`: type test for `ErrInvalidRule`. -/
def IsInvalidRuleError : SecErr → Bool
  | .invalidRule _ => true
  | _ => false

/-- `IsInvalidContextError` from `errors.go`: type test for `ErrInvalidContext`. -/
def IsInvalidContextError : SecErr → Bool
  | .invalidContext _ => true
  | _ => false

/-- `Context` from `context.go`: three attribute maps (user, resource,
environment), each `map[string]interface{}`. -/
structure Context where
  user : List (String × GoVal)
  resource : List (String × GoVal)
  environment : List (String × GoVal)

/-- `NewContext` from `context.go`: all three maps empty. -/
def NewContext : Context := ⟨[], [], []⟩

/-- `Rule` from `rule.go` (engine variant): resource, action, effect and a
`map[string]interface{}` of conditions keyed by condition kind. -/
structure Rule where
  resource : String
  action : String
  effect : Effect
  conditions : List (String × GoVal)

/-- `Rule.matches` from `rule.go`:
`(r.resource == resource || r.resource == "*") && (r.action == action || r.action == "*")`. -/
def Rule.matches (r : Rule) (resource action : String) : Bool :=
  (r.resource == resource || r.resource == "*") &&
    (r.action == action || r.action == "*")

/-- `Rule.validate` from `rule.go`: empty resource, then empty action, then
effect outside {allow, deny} are rejected with an `ErrInvalidRule`. -/
def Rule.validate (r : Rule) : Option SecErr :=
  if r.resource == "" then some (.invalidRule "resource is required")
  else if r.action == "" then some (.invalidRule "action is required")
  else if r.effect != Allow && r.effect != Deny then
    some (.invalidRule "effect must be either allow or deny")
  else none

/-- `Engine` from `engine.go`: the rule collection (the `sync.RWMutex` is
irrelevant to the sequential semantics modelled here). -/
structure Engine where
  rules : List Rule

/-- `NewEngine` from `engine.go`. -/
def NewEngine : Engine := ⟨[]⟩

/-- `AddRule` from `engine.go`. The argument is `*Rule`; `none` stands for a
nil pointer. The Go code calls `rule.validate()` unconditionally, and
`validate` dereferences its receiver (`r.resource`), so a nil argument
panics: result `none`. On a validation error the engine is unchanged;
otherwise the rule struct is appended by value (`append(e.rules, *rule)`). -/
def AddRule (e : Engine) (rule : Option Rule) : Option (Engine × Option SecErr) :=
  match rule with
  | none => none
  | some r =>
    match r.validate with
    | some err => some (e, some err)
    | none => some (⟨e.rules ++ [r]⟩, none)

/-- `findMatchingRules` from `engine.go`: all rules matching, in insertion
order. -/
def findMatchingRules (e : Engine) (resource action : String) : List Rule :=
  e.rules.filter (fun r => r.matches resource action)

/-- The single-return type assertion `v.(string)`: panics (`none`) unless the
dynamic type is `string`. -/
def goAssertString : GoVal → Option String
  | .str s => some s
  | _ => none

/-- Go `==` on two `interface{}` values: `false` when the dynamic types
differ, value comparison when both are comparable, and a panic (`none`) when
both sides share an uncomparable dynamic type (slice or map). -/
def goIfaceEq : GoVal → GoVal → Option Bool
  | .str a, .str b => some (a == b)
  | .bool a, .bool b => some (a == b)
  | .null, .null => some true
  | .strList _, .strList _ => none
  | .ifaceList _, .ifaceList _ => none
  | .objVal _, .objVal _ => none
  | _, _ => some false

/-- The `for _, role := range roles` loop of `matchUserRole`: each iteration
evaluates `role == requiredRole.(string)`, so a non-string required role
panics as soon as the list is nonempty. -/
def rolesLoop (roles : List String) (requiredRole : GoVal) : Option Bool :=
  match roles with
  | [] => some false
  | role :: rest =>
    match goAssertString requiredRole with
    | none => none
    | some s => if role == s then some true else rolesLoop rest requiredRole

/-- The single-role ("role" key) half of `matchUserRole` from `engine.go`. -/
def roleSingle (ctx : Context) (requiredRole : GoVal) : Option Bool :=
  match ctx.user.lookup "role" with
  | some (.str role) =>
    match goAssertString requiredRole with
    | none => none
    | some s => some (role == s)
  | _ => some false

/-- `matchUserRole` from `engine.go`: try `ctx.User()["roles"].([]string)`
first (comma-ok assertion: a missing key or any other dynamic type falls
through silently), then the `ctx.User()["role"].(string)` single-role form. -/
def matchUserRole (ctx : Context) (requiredRole : GoVal) : Option Bool :=
  match ctx.user.lookup "roles" with
  | some (.strList roles) =>
    match rolesLoop roles requiredRole with
    | none => none
    | some true => some true
    | some false => roleSingle ctx requiredRole
  | _ => roleSingle ctx requiredRole

/-- `matchResourceOwner` from `engine.go`:
`userOK && resourceOK && userID == resourceOwner` (short-circuit: the
interface comparison only runs when both keys are present). -/
def matchResourceOwner (ctx : Context) : Option Bool :=
  match ctx.user.lookup "id", ctx.resource.lookup "owner" with
  | some uid, some owner => goIfaceEq uid owner
  | _, _ => some false

/-- The `for key, condition := range rule.conditions` loop of `evaluateRule`
from `engine.go`: `userRole` and `resourceOwner` are the only handled kinds
(the `switch` has no default case, so any other kind is skipped); the first
non-matching condition short-circuits to `some false`. -/
def evalConditions (ctx : Context) : List (String × GoVal) → Option Bool
  | [] => some true
  | (key, v) :: rest =>
    if key == "userRole" then
      match matchUserRole ctx v with
      | none => none
      | some b => if b then evalConditions ctx rest else some false
    else if key == "resourceOwner" then
      match matchResourceOwner ctx with
      | none => none
      | some b => if b then evalConditions ctx rest else some false
    else evalConditions ctx rest

/-- `evaluateRule` from `engine.go`: a failed condition yields
`(false, nil)`; with every condition passed the result is
`(rule.effect == Allow, nil)`. Note that no branch produces a non-nil
error. -/
def evaluateRule (rule : Rule) (ctx : Context) : Option (Bool × Option SecErr) :=
  match evalConditions ctx rule.conditions with
  | none => none
  | some false => some (false, none)
  | some true => some (rule.effect == Allow, none)

/-- The `for _, rule := range matchingRules` loop of `IsAllowed` from
`engine.go`: a per-rule error returns `(false, err)`, a per-rule `false`
returns `(false, nil)`, and surviving every rule returns `(true, nil)`. -/
def rulesLoop' (ctx : Context) : List Rule → Option (Bool × Option SecErr)
  | [] => some (true, none)
  | r :: rest =>
    match evaluateRule r ctx with
    | none => none
    | some (_, some err) => some (false, some err)
    | some (allowed, none) =>
      if allowed then rulesLoop' ctx rest else some (false, none)

/-- `IsAllowed` from `engine.go`: nil context is rejected with
`ErrInvalidContext` before any matching; an empty matching set is the
default deny `(false, nil)`; otherwise every matching rule is evaluated. -/
def IsAllowed (e : Engine) (resource action : String) (ctx : Option Context) :
    Option (Bool × Option SecErr) :=
  match ctx with
  | none => some (false, some (.invalidContext "context is required"))
  | some c =>
    let matchingRules := findMatchingRules e resource action
    if matchingRules.length == 0 then some (false, none)
    else rulesLoop' c matchingRules

/-!
Heap-level view of rule registration, for the aliasing behaviour of Go's
`map` field. In Go, `Rule.conditions` is a `map[string]interface{}`:
`AddRule` appends the struct by value (`append(e.rules, *rule)`), which
copies the scalar fields but only the map *reference*. `WithCondition`
(`r.conditions[key] = value`) mutates the referenced map in place. The heap
model makes that reference explicit: condition maps live in a `Heap`
indexed by `Nat` references, and a `RuleRef` is the Go struct with its map
pointer. `resolveRule` reads a `RuleRef` back into the plain `Rule` value
that the decision algorithm above consumes.
-/

/-- Go's map-update statement `m[k] = v` on an association list: replace the
binding if the key is present, append otherwise. -/
def mapInsert (m : List (String × GoVal)) (k : String) (v : GoVal) :
    List (String × GoVal) :=
  match m with
  | [] => [(k, v)]
  | (k', v') :: rest =>
    if k' == k then (k, v) :: rest else (k', v') :: mapInsert rest k v

/-- The store of live `map[string]interface{}` condition maps. -/
structure Heap where
  maps : List (List (String × GoVal))

/-- Dereference a map pointer. -/
def Heap.get (h : Heap) (i : Nat) : List (String × GoVal) :=
  (h.maps.get? i).getD []

/-- Overwrite the map a pointer refers to. -/
def Heap.set (h : Heap) (i : Nat) (m : List (String × GoVal)) : Heap :=
  ⟨h.maps.set i m⟩

/-- The Go `Rule` struct as laid out in memory: scalar fields by value, the
conditions map by reference. -/
structure RuleRef where
  resource : String
  action : String
  effect : Effect
  conditions : Nat

/-- `NewRule` from `rule.go`: zero-valued scalars and a freshly allocated
empty conditions map. -/
def newRuleH (h : Heap) : RuleRef × Heap :=
  (⟨"", "", "", h.maps.length⟩, ⟨h.maps ++ [[]]⟩)

/-- `WithCondition` from `rule.go` (`r.conditions[key] = value`): an
in-place update of the map the rule points to; the rule struct itself is
returned unchanged (builder style). -/
def withConditionH (h : Heap) (r : RuleRef) (key : String) (v : GoVal) : Heap :=
  h.set r.conditions (mapInsert (h.get r.conditions) key v)

/-- Read a stored rule struct back into a plain `Rule` value by
dereferencing its conditions map in the current heap. -/
def resolveRule (h : Heap) (r : RuleRef) : Rule :=
  ⟨r.resource, r.action, r.effect, h.get r.conditions⟩

/-- The engine's rule slice at heap level: `AddRule` appends the struct by
value, so each element carries its own scalar fields but shares the
conditions map reference with the rule it was copied from. -/
structure EngineH where
  rules : List RuleRef

/-- `AddRule` from `engine.go` at heap level: `validate` reads only the
scalar fields; on success the struct (scalars + map reference) is appended. -/
def addRuleH (h : Heap) (e : EngineH) (r : RuleRef) :
    Option (EngineH × Option SecErr) :=
  match (resolveRule h r).validate with
  | some err => some (e, some err)
  | none => some (⟨e.rules ++ [r]⟩, none)

/-- `IsAllowed` at heap level: the decision reads each stored rule through
the current heap. -/
def isAllowedH (h : Heap) (e : EngineH) (resource action : String)
    (ctx : Option Context) : Option (Bool × Option SecErr) :=
  IsAllowed ⟨e.rules.map (resolveRule h)⟩ resource action ctx

namespace Structured

/-!
The structured variant: `Rule` / `Condition` with exported fields and the
custom JSON (un)marshalling of `rule.go` (second part) and the `Condition`
source file. JSON documents are modelled by the `Json` AST below (numeric
values are outside the model, as in `GoVal`). Objects are association
lists; `encoding/json` field order is irrelevant because unmarshalling is
by key.
-/

/-- A JSON document. -/
inductive Json where
  | str (s : String)
  | bool (b : Bool)
  | null
  | arr (elems : List Json)
  | obj (fields : List (String × Json))

/-- `Condition` from the structured variant: Type, Operation, Value,
Message. `ConditionType` and `ConditionOperator` are Go string types, so
both are plain strings here; `Value` is `interface{}`. The Go field `Type`
is spelled `ctype` (Lean reserves `Type`). -/
structure Condition where
  ctype : String
  operation : String
  value : GoVal
  message : String

/-- `ValidateCondition` from the structured variant: type, operation and
value must be present (`Value == nil` is the Go nil interface, `GoVal.null`
here). -/
def ValidateCondition (c : Condition) : Option SecErr :=
  if c.ctype == "" then some (.invalidCondition "condition type is required")
  else if c.operation == "" then
    some (.invalidCondition "condition operation is required")
  else
    match c.value with
    | .null => some (.invalidCondition "condition value is required")
    | _ => none

mutual
/-- `json.Marshal` on an `interface{}` value of the modelled shapes. -/
def marshalValue : GoVal → Json
  | .str s => .str s
  | .strList l => .arr (l.map Json.str)
  | .bool b => .bool b
  | .null => .null
  | .ifaceList l => .arr (marshalValueList l)
  | .objVal l => .obj (marshalValueObj l)

def marshalValueList : List GoVal → List Json
  | [] => []
  | v :: rest => marshalValue v :: marshalValueList rest

def marshalValueObj : List (String × GoVal) → List (String × Json)
  | [] => []
  | (k, v) :: rest => (k, marshalValue v) :: marshalValueObj rest
end

mutual
/-- `json.Unmarshal` into a plain `interface{}`: strings, bools, null,
arrays (as `[]interface{}`) and objects (as `map[string]interface{}`). -/
def unmarshalValueGeneric : Json → GoVal
  | .str s => .str s
  | .bool b => .bool b
  | .null => .null
  | .arr js => .ifaceList (unmarshalGenericList js)
  | .obj fs => .objVal (unmarshalGenericObj fs)

def unmarshalGenericList : List Json → List GoVal
  | [] => []
  | j :: rest => unmarshalValueGeneric j :: unmarshalGenericList rest

def unmarshalGenericObj : List (String × Json) → List (String × GoVal)
  | [] => []
  | (k, j) :: rest => (k, unmarshalValueGeneric j) :: unmarshalGenericObj rest
end

/-- `json.Unmarshal` of a JSON array into `[]string`: every element must be
a string. -/
def jsonStrings : List Json → Option (List String)
  | [] => some []
  | .str s :: rest => (jsonStrings rest).map (s :: ·)
  | _ :: _ => none

/-- `json.Unmarshal(data, &strSlice)` for `strSlice : []string`: succeeds on
an array of strings, and on `null` (leaving the nil slice, indistinguishable
from the empty slice in this model). -/
def tryUnmarshalStringList : Json → Option (List String)
  | .arr js => jsonStrings js
  | .null => some []
  | _ => none

/-- `json.Unmarshal(data, &str)` for `str : string`: succeeds on a string,
and on `null` (leaving the zero value `""`). -/
def tryUnmarshalString : Json → Option String
  | .str s => some s
  | .null => some ""
  | _ => none

/-- The `Value` handling of `Condition.UnmarshalJSON`: try `[]string`
first, then `string`, then generic `interface{}` (which never fails on a
well-formed document). -/
def unmarshalConditionValue (j : Json) : GoVal :=
  match tryUnmarshalStringList j with
  | some l => .strList l
  | none =>
    match tryUnmarshalString j with
    | some s => .str s
    | none => unmarshalValueGeneric j

/-- Unmarshalling a `string`-typed struct field from a JSON object: a
missing key or `null` leaves the zero value `""`; any non-string value is a
`json.Unmarshal` error. -/
def getStringField (fields : List (String × Json)) (key : String) :
    Option String :=
  match fields.lookup key with
  | none => some ""
  | some (.str s) => some s
  | some .null => some ""
  | some _ => none

/-- `Condition.MarshalJSON`: an object with the string tags of Type and
Operation (the outer fields of the wrapper struct dominate the shadowed
alias fields), the marshalled Value, and Message. -/
def marshalCondition (c : Condition) : Json :=
  .obj [("type", .str c.ctype), ("operation", .str c.operation),
        ("value", marshalValue c.value), ("message", .str c.message)]

/-- `Condition.UnmarshalJSON`: unmarshal the aux struct (type, operation,
message as strings; value as `json.RawMessage`), then decode Value with the
three-stage fallback. A document that is not an object, a tag field of the
wrong type, or an absent `value` key (the zero `RawMessage` fails all three
stages) is an error. -/
def unmarshalCondition : Json → Option Condition
  | .obj fields =>
    match getStringField fields "type", getStringField fields "operation",
        getStringField fields "message", fields.lookup "value" with
    | some t, some op, some msg, some jv =>
      some ⟨t, op, unmarshalConditionValue jv, msg⟩
    | _, _, _, _ => none
  | _ => none

end Structured

namespace Structured

/-- `Rule` from the structured variant. `RuleType` and `Severity` are Go
string types, so `rtype` (Go `Type`) and `severity` are strings. -/
structure Rule where
  id : String
  name : String
  description : String
  rtype : String
  severity : String
  resource : String
  action : String
  effect : Effect
  conditions : List (String × Condition)
  metadata : List (String × String)

/-- `Rule.MarshalJSON`: the `RuleJSON` shadow struct, with enum fields as
string tags and each condition marshalled by `Condition.MarshalJSON`. -/
def marshalRule (r : Rule) : Json :=
  .obj [("id", .str r.id), ("name", .str r.name),
        ("description", .str r.description), ("type", .str r.rtype),
        ("severity", .str r.severity), ("resource", .str r.resource),
        ("action", .str r.action), ("effect", .str r.effect),
        ("conditions",
          .obj (r.conditions.map (fun p => (p.1, marshalCondition p.2)))),
        ("metadata", .obj (r.metadata.map (fun p => (p.1, Json.str p.2))))]

/-- Unmarshalling a `map[string]Condition` field: every value must
unmarshal as a `Condition`. -/
def unmarshalCondList : List (String × Json) →
    Option (List (String × Condition))
  | [] => some []
  | (k, j) :: rest =>
    match unmarshalCondition j with
    | none => none
    | some c => (unmarshalCondList rest).map ((k, c) :: ·)

/-- The `Conditions` field of `Rule.UnmarshalJSON`: a missing key or `null`
leaves the nil map, which the trailing initialization turns into an empty
map; a non-object value is an error. -/
def getConditionsField (fields : List (String × Json)) :
    Option (List (String × Condition)) :=
  match fields.lookup "conditions" with
  | none => some []
  | some .null => some []
  | some (.obj cfs) => unmarshalCondList cfs
  | some _ => none

/-- Unmarshalling a `map[string]string` field: every value must be a
string. -/
def metaStrings : List (String × Json) → Option (List (String × String))
  | [] => some []
  | (k, .str s) :: rest => (metaStrings rest).map ((k, s) :: ·)
  | _ :: _ => none

/-- The `Metadata` field of `Rule.UnmarshalJSON`, with the same nil-map
initialization as `Conditions`. -/
def getMetadataField (fields : List (String × Json)) :
    Option (List (String × String)) :=
  match fields.lookup "metadata" with
  | none => some []
  | some .null => some []
  | some (.obj ms) => metaStrings ms
  | some _ => none

/-- `Rule.UnmarshalJSON`: unmarshal the `RuleJSON` shadow struct and copy
every field back, materializing absent condition/metadata maps as empty. -/
def unmarshalRule : Json → Option Rule
  | .obj fields => do
    let id ← getStringField fields "id"
    let name ← getStringField fields "name"
    let description ← getStringField fields "description"
    let rtype ← getStringField fields "type"
    let severity ← getStringField fields "severity"
    let resource ← getStringField fields "resource"
    let action ← getStringField fields "action"
    let effect ← getStringField fields "effect"
    let conditions ← getConditionsField fields
    let metadata ← getMetadataField fields
    pure ⟨id, name, description, rtype, severity, resource, action, effect,
          conditions, metadata⟩
  | _ => none

/-- The three `value` shapes named by the round-trip contract: a single
string, an ordered sequence of strings, or a boolean. -/
def threeShape : GoVal → Bool
  | .str _ => true
  | .strList _ => true
  | .bool _ => true
  | _ => false

end Structured

/-- Classifier used to state "the `roles` key is absent or not a
`[]string`": the shape test the comma-ok assertion
`ctx.User()["roles"].([]string)` performs. -/
def isStrListOpt : Option GoVal → Bool
  | some (.strList _) => true
  | _ => false

/-- Classifier used to state "the `role` key is absent or not a `string`":
the shape test of `ctx.User()["role"].(string)`. -/
def isStrOpt : Option GoVal → Bool
  | some (.str _) => true
  | _ => false

/-- Whether a Go error value (possibly nil) is an `ErrInvalidRule`. -/
def optionIsInvalidRule : Option SecErr → Bool
  | some err => IsInvalidRuleError err
  | none => false

/-- A structured rule whose single condition carries the
`[]interface{}{"admin"}` value shape that the package documentation
constructs. -/
def rEx9 : Structured.Rule :=
  ⟨"doc-access-rule", "Document Access Control", "", "resource", "HIGH",
   "documents", "read", "allow",
   [("userRole", ⟨"role", "in", GoVal.ifaceList [GoVal.str "admin"], ""⟩)],
   [("owner", "security-team")]⟩

/-- What `rEx9` becomes after a marshal/unmarshal round trip: the
`[]interface{}` value has collapsed to a `[]string`. -/
def rEx9' : Structured.Rule :=
  ⟨"doc-access-rule", "Document Access Control", "", "resource", "HIGH",
   "documents", "read", "allow",
   [("userRole", ⟨"role", "in", GoVal.strList ["admin"], ""⟩)],
   [("owner", "security-team")]⟩

/-- A structured rule whose condition values stay within the three
supported shapes (string, string sequence, boolean). -/
def rW9 : Structured.Rule :=
  ⟨"doc-access-rule", "Document Access Control", "desc", "resource", "HIGH",
   "documents", "read", "allow",
   [("userRole", ⟨"role", "in", GoVal.strList ["admin", "editor"], "msg"⟩),
    ("singleRole", ⟨"role", "equals", GoVal.str "admin", ""⟩),
    ("resourceOwner", ⟨"basic", "equals", GoVal.bool true, ""⟩)],
   [("owner", "security-team")]⟩

instance : LawfulBEq Effect := inferInstanceAs (LawfulBEq String)

theorem rulesLoop_all_true {ctx : Context} {rs : List Rule} {err : Option SecErr}
    (h : rulesLoop' ctx rs = some (true, err)) :
    err = none ∧ ∀ r ∈ rs, evaluateRule r ctx = some (true, none) := by
  induction rs with
  | nil =>
    simp only [rulesLoop', Option.some.injEq, Prod.mk.injEq, true_and] at h
    exact ⟨h.symm, by simp⟩
  | cons r rest ih =>
    simp only [rulesLoop'] at h
    cases he : evaluateRule r ctx with
    | none => rw [he] at h; exact absurd h (by simp)
    | some p =>
      obtain ⟨a, errv⟩ := p
      rw [he] at h
      cases errv with
      | some err' => simp at h
      | none =>
        cases a with
        | false => simp at h
        | true =>
          simp only [if_true] at h
          obtain ⟨h1, h2⟩ := ih h
          exact ⟨h1, by
            intro r' hr'
            rcases List.mem_cons.mp hr' with h' | h'
            · rw [h']; exact he
            · exact h2 r' h'⟩

theorem evaluateRule_true_iff (r : Rule) (ctx : Context) :
    evaluateRule r ctx = some (true, none) ↔
      evalConditions ctx r.conditions = some true ∧ r.effect = Allow := by
  unfold evaluateRule
  cases hc : evalConditions ctx r.conditions with
  | none => simp
  | some b =>
    cases b with
    | false => simp
    | true => simp [beq_iff_eq]

theorem evaluateRule_of_conds_false {r : Rule} {ctx : Context}
    (h : evalConditions ctx r.conditions = some false) :
    evaluateRule r ctx = some (false, none) := by
  unfold evaluateRule
  rw [h]

/-- Claim C1: for every registered rule set and every (resource, action,
non-nil context), `IsAllowed` returns `(true, nil)` only if every matching
rule has all of its conditions satisfied (in the sense of `evalConditions`,
i.e. of `evaluateRule`'s condition loop) and effect `allow`; whenever the
call returns and some matching rule with satisfied conditions has effect
`deny`, or some matching rule has an unsatisfied condition, the returned
boolean is `false`; and in the concrete two-rule scenario — one satisfied
`allow` rule and one satisfied `deny` rule for the same (resource, action)
— `IsAllowed` returns `(false, nil)`. -/
theorem claim1_conjunctive_semantics (e : Engine) (res act : String) (ctx : Context) :
    (IsAllowed e res act (some ctx) = some (true, none) →
      findMatchingRules e res act ≠ [] ∧
      ∀ r ∈ findMatchingRules e res act,
        evalConditions ctx r.conditions = some true ∧ r.effect = Allow)
    ∧ (∀ b err, IsAllowed e res act (some ctx) = some (b, err) →
        (∃ r ∈ findMatchingRules e res act,
          evalConditions ctx r.conditions = some true ∧ r.effect = Deny) →
        b = false)
    ∧ (∀ b err, IsAllowed e res act (some ctx) = some (b, err) →
        (∃ r ∈ findMatchingRules e res act,
          evalConditions ctx r.conditions = some false) →
        b = false)
    ∧ IsAllowed
        ⟨[⟨"documents", "read", Allow, []⟩, ⟨"documents", "read", Deny, []⟩]⟩
        "documents" "read" (some NewContext) = some (false, none) := by
  refine ⟨?_, ?_, ?_, rfl⟩
  · intro h
    unfold IsAllowed at h
    by_cases hlen : (findMatchingRules e res act).length == 0
    · simp [hlen] at h
    · simp only [hlen, if_false] at h
      refine ⟨?_, ?_⟩
      · intro hnil
        rw [hnil] at hlen
        simp at hlen
      · intro r hr
        exact (evaluateRule_true_iff r ctx).mp ((rulesLoop_all_true h).2 r hr)
  · intro b err h hex
    cases b with
    | false => rfl
    | true =>
      exfalso
      obtain ⟨r, hr, hconds, heff⟩ := hex
      unfold IsAllowed at h
      by_cases hlen : (findMatchingRules e res act).length == 0
      · have hnil : findMatchingRules e res act = [] :=
          List.length_eq_zero.mp (by simpa using hlen)
        rw [hnil] at hr
        exact absurd hr (List.not_mem_nil r)
      · simp only [hlen, if_false] at h
        have hall := (rulesLoop_all_true h).2 r hr
        have : r.effect = Allow := ((evaluateRule_true_iff r ctx).mp hall).2
        rw [heff] at this
        exact absurd this (by decide)
  · intro b err h hex
    cases b with
    | false => rfl
    | true =>
      exfalso
      obtain ⟨r, hr, hconds⟩ := hex
      unfold IsAllowed at h
      by_cases hlen : (findMatchingRules e res act).length == 0
      · have hnil : findMatchingRules e res act = [] :=
          List.length_eq_zero.mp (by simpa using hlen)
        rw [hnil] at hr
        exact absurd hr (List.not_mem_nil r)
      · simp only [hlen, if_false] at h
        have hall := (rulesLoop_all_true h).2 r hr
        rw [evaluateRule_of_conds_false hconds] at hall
        simp at hall

/-- Witness for C1 at a concrete input: a one-rule engine that grants the
request, so the matching set is nonempty by the theorem. -/
theorem claim1_witness :
    findMatchingRules ⟨[⟨"documents", "read", Allow, []⟩]⟩ "documents" "read" ≠ [] :=
  ((claim1_conjunctive_semantics ⟨[⟨"documents", "read", Allow, []⟩]⟩
    "documents" "read" NewContext).1 rfl).1

/-- Claim C2: whenever no registered rule matches (resource, action) — in
particular for the empty rule set — `IsAllowed` with a non-nil context
returns `(false, nil)`: default deny without an error. -/
theorem claim2_default_deny (e : Engine) (res act : String) (ctx : Context)
    (h : findMatchingRules e res act = []) :
    IsAllowed e res act (some ctx) = some (false, none) := by
  simp [IsAllowed, h]

/-- Witness for C2 at a concrete input: the empty rule set. -/
theorem claim2_witness :
    IsAllowed NewEngine "resource" "action" (some NewContext) = some (false, none) :=
  claim2_default_deny NewEngine "resource" "action" NewContext rfl

/-- Counterexample to C7: `AddRule` on a nil rule does not return an error —
the unconditional `rule.validate()` call dereferences the nil pointer
(`r.resource`), so the call panics (`none` in this model) instead of
returning; in particular no `(engine, error)` pair is produced. -/
theorem claim7_counterexample : AddRule NewEngine none = none := rfl

/-- Claim C7 as amended: `AddRule` has no nil check; called with a nil rule
it dereferences the nil pointer inside `validate` and panics (aborting
rather than returning an error). For any engine state the call fails to
return. -/
theorem claim7_amended (e : Engine) : AddRule e none = none := rfl

/-- Claim C8: `IsAllowed` with an absent (nil) context returns
`allowed = false` together with the `ErrInvalidContext` error, and does so
before any rule matching: the result is the same for every engine (rule
collection) whatsoever. -/
theorem claim8_nil_context (e : Engine) (res act : String) :
    IsAllowed e res act none =
      some (false, some (SecErr.invalidContext "context is required")) ∧
    IsInvalidContextError (SecErr.invalidContext "context is required") = true ∧
    ∀ e' : Engine, IsAllowed e res act none = IsAllowed e' res act none :=
  ⟨rfl, rfl, fun _ => rfl⟩

theorem evalConditions_skip (ctx : Context) :
    ∀ cs : List (String × GoVal),
      (∀ p ∈ cs, p.1 ≠ "userRole" ∧ p.1 ≠ "resourceOwner") →
      evalConditions ctx cs = some true := by
  intro cs
  induction cs with
  | nil => intro _; rfl
  | cons p rest ih =>
    intro h
    obtain ⟨k, v⟩ := p
    have hk := h (k, v) (List.mem_cons_self _ _)
    have h1 : (k == "userRole") = false := beq_eq_false_iff_ne.mpr hk.1
    have h2 : (k == "resourceOwner") = false := beq_eq_false_iff_ne.mpr hk.2
    simp only [evalConditions, h1, h2, Bool.false_eq_true, if_false]
    exact ih (fun q hq => h q (List.mem_cons_of_mem _ hq))

/-- Counterexample to C3: a rule whose only condition has the unregistered
kind `customCheck` matches, yet `IsAllowed` returns `(true, nil)` — the
`switch` in `evaluateRule` has no default case, so the condition is
silently skipped, no error is produced, and the claimed "never
`(true, nil)`" outcome occurs. -/
theorem claim3_counterexample :
    IsAllowed ⟨[⟨"documents", "read", Allow, [("customCheck", GoVal.bool true)]⟩]⟩
      "documents" "read" (some NewContext) = some (true, none) := rfl

/-- Claim C3 as amended: a condition whose kind is neither `userRole` nor
`resourceOwner` is silently skipped by `evaluateRule` — it behaves as
satisfied, no error is produced, and a rule whose conditions are all of
unhandled kinds evaluates to `(effect == allow, nil)`. -/
theorem claim3_amended (r : Rule) (ctx : Context)
    (h : ∀ p ∈ r.conditions, p.1 ≠ "userRole" ∧ p.1 ≠ "resourceOwner") :
    evalConditions ctx r.conditions = some true ∧
    evaluateRule r ctx = some (r.effect == Allow, none) := by
  have hc := evalConditions_skip ctx r.conditions h
  refine ⟨hc, ?_⟩
  unfold evaluateRule
  rw [hc]

/-- Witness for C3 (amended) at a concrete input: the `customCheck` rule
evaluates to `(true, nil)` although its condition was never checked. -/
theorem claim3_amended_witness :
    evaluateRule ⟨"documents", "read", Allow, [("customCheck", GoVal.bool true)]⟩
      NewContext = some (true, none) :=
  (claim3_amended ⟨"documents", "read", Allow, [("customCheck", GoVal.bool true)]⟩
    NewContext (by decide)).2

theorem roleSingle_no_key {ctx : Context} (req : GoVal)
    (h2 : isStrOpt (ctx.user.lookup "role") = false) :
    roleSingle ctx req = some false := by
  unfold roleSingle
  cases hs : ctx.user.lookup "role" with
  | none => rfl
  | some v =>
    cases v with
    | str s => rw [hs] at h2; simp [isStrOpt] at h2
    | strList l => rfl
    | bool b => rfl
    | null => rfl
    | ifaceList l => rfl
    | objVal l => rfl

theorem matchUserRole_no_keys {ctx : Context} (req : GoVal)
    (h1 : isStrListOpt (ctx.user.lookup "roles") = false)
    (h2 : isStrOpt (ctx.user.lookup "role") = false) :
    matchUserRole ctx req = some false := by
  unfold matchUserRole
  cases hr : ctx.user.lookup "roles" with
  | none => exact roleSingle_no_key req h2
  | some v =>
    cases v with
    | str s => exact roleSingle_no_key req h2
    | strList l => rw [hr] at h1; simp [isStrListOpt] at h1
    | bool b => exact roleSingle_no_key req h2
    | null => exact roleSingle_no_key req h2
    | ifaceList l => exact roleSingle_no_key req h2
    | objVal l => exact roleSingle_no_key req h2

/-- Counterexample to C4: a matching rule with a `userRole` condition and a
context whose user map has neither a `roles` nor a `role` key (only `id`,
exactly the repository's own `TestEngine_EvaluationErrors` scenario):
`IsAllowed` returns `(false, nil)` — a plain denial, not the non-nil
evaluation error the claim requires. `matchUserRole` has no error path; it
just returns `false`. -/
theorem claim4_counterexample :
    IsAllowed ⟨[⟨"test", "action", Allow, [("userRole", GoVal.str "admin")]⟩]⟩
      "test" "action" (some ⟨[("id", GoVal.str "user1")], [], []⟩) =
      some (false, none) := rfl

/-- Claim C4 as amended: for a matching rule with a `userRole` condition
and a context whose user map has neither a usable `roles` key (a
`[]string`) nor a usable `role` key (a `string`), the role check is a
non-match and `IsAllowed` returns `(false, nil)` — a denial
indistinguishable from a legitimately unmet condition, with no error. -/
theorem claim4_amended (ctx : Context) (req : GoVal)
    (h1 : isStrListOpt (ctx.user.lookup "roles") = false)
    (h2 : isStrOpt (ctx.user.lookup "role") = false) :
    matchUserRole ctx req = some false ∧
    ∀ (r : Rule) (res act : String), r.conditions = [("userRole", req)] →
      r.matches res act = true →
      IsAllowed ⟨[r]⟩ res act (some ctx) = some (false, none) := by
  have hm := matchUserRole_no_keys req h1 h2
  refine ⟨hm, ?_⟩
  intro r res act hconds hmatch
  have hec : evalConditions ctx r.conditions = some false := by
    rw [hconds]
    simp [evalConditions, hm]
  have her := evaluateRule_of_conds_false hec
  have hf : findMatchingRules ⟨[r]⟩ res act = [r] := by
    simp [findMatchingRules, hmatch]
  simp [IsAllowed, hf, rulesLoop', her]

/-- Witness for C4 (amended) at a concrete input: the test scenario's
context (`user = {"id": "user1"}`). -/
theorem claim4_amended_witness :
    matchUserRole ⟨[("id", GoVal.str "user1")], [], []⟩ (GoVal.str "admin") =
      some false :=
  (claim4_amended ⟨[("id", GoVal.str "user1")], [], []⟩ (GoVal.str "admin")
    rfl rfl).1

/-- Claim C10: a rule requiring `userRole` equal to a given string is not
matched by a context that stores the roles under `"roles"` as a
`[]interface{}` (as the package documentation examples construct), even
when that sequence contains exactly the required role: the
`.([]string)` comma-ok assertion fails silently, the role check is a
non-match, and `IsAllowed` returns `(false, nil)` with no error. -/
theorem claim10_iface_roles_no_match (ctx : Context) (l : List GoVal) (req : String)
    (h1 : ctx.user.lookup "roles" = some (GoVal.ifaceList l))
    (h2 : ctx.user.lookup "role" = none) :
    matchUserRole ctx (GoVal.str req) = some false ∧
    ∀ (r : Rule) (res act : String),
      r.conditions = [("userRole", GoVal.str req)] →
      r.matches res act = true →
      IsAllowed ⟨[r]⟩ res act (some ctx) = some (false, none) := by
  have h1' : isStrListOpt (ctx.user.lookup "roles") = false := by
    rw [h1]; rfl
  have h2' : isStrOpt (ctx.user.lookup "role") = false := by
    rw [h2]; rfl
  have hm := matchUserRole_no_keys (GoVal.str req) h1' h2'
  refine ⟨hm, ?_⟩
  intro r res act hconds hmatch
  have hec : evalConditions ctx r.conditions = some false := by
    rw [hconds]
    simp [evalConditions, hm]
  have her := evaluateRule_of_conds_false hec
  have hf : findMatchingRules ⟨[r]⟩ res act = [r] := by
    simp [findMatchingRules, hmatch]
  simp [IsAllowed, hf, rulesLoop', her]

/-- Witness for C10 at a concrete input: `roles = []interface{}{"admin"}`
and required role `"admin"` — contained in the sequence, yet denied with no
error. -/
theorem claim10_witness :
    IsAllowed ⟨[⟨"documents", "read", Allow, [("userRole", GoVal.str "admin")]⟩]⟩
      "documents" "read"
      (some ⟨[("roles", GoVal.ifaceList [GoVal.str "admin"])], [], []⟩) =
      some (false, none) :=
  (claim10_iface_roles_no_match
      ⟨[("roles", GoVal.ifaceList [GoVal.str "admin"])], [], []⟩
      [GoVal.str "admin"] "admin" rfl rfl).2
    ⟨"documents", "read", Allow, [("userRole", GoVal.str "admin")]⟩
    "documents" "read" rfl rfl

/-- Claim C6: `AddRule` on a structurally invalid rule (empty resource,
empty action, or effect outside {allow, deny}) returns the engine unchanged
together with an `ErrInvalidRule` validation error — no partial
registration. -/
theorem claim6_registration_atomicity (e : Engine) (r : Rule)
    (h : r.resource = "" ∨ r.action = "" ∨ (r.effect ≠ Allow ∧ r.effect ≠ Deny)) :
    AddRule e (some r) = some (e, r.validate) ∧
    r.validate ≠ none ∧ optionIsInvalidRule r.validate = true := by
  have hv : r.validate ≠ none ∧ optionIsInvalidRule r.validate = true := by
    unfold Rule.validate
    split_ifs with h1 h2 h3
    · exact ⟨by simp, rfl⟩
    · exact ⟨by simp, rfl⟩
    · exact ⟨by simp, rfl⟩
    · exfalso
      rcases h with hr | ha | he
      · exact h1 (by simp [hr])
      · exact h2 (by simp [ha])
      · simp only [Bool.and_eq_true, bne_iff_ne, ne_eq] at h3
        rw [not_and_or, not_not, not_not] at h3
        rcases h3 with h3 | h3
        · exact he.1 h3
        · exact he.2 h3
  refine ⟨?_, hv⟩
  cases hval : r.validate with
  | none => exact absurd hval hv.1
  | some err => simp [AddRule, hval]

/-- Witness for C6 at a concrete input: a rule with an empty resource is
rejected with the `resource is required` error and the engine stays empty. -/
theorem claim6_witness :
    AddRule NewEngine (some ⟨"", "read", Allow, []⟩) =
      some (NewEngine, some (SecErr.invalidRule "resource is required")) :=
  (claim6_registration_atomicity NewEngine ⟨"", "read", Allow, []⟩ (Or.inl rfl)).1

theorem heap_get_set_self (h : Heap) (i : Nat) (m : List (String × GoVal))
    (hi : i < h.maps.length) : (h.set i m).get i = m := by
  unfold Heap.get Heap.set
  have : (h.maps.set i m).get? i = some m := by
    rw [List.get?_eq_get (by simpa using hi)]
    simp [List.getElem_set_self]
  rw [this]
  rfl

/-- Counterexample to C5: register a valid rule with an (initially empty)
conditions map, observe `IsAllowed = (true, nil)`; then mutate the
caller's original rule with `WithCondition("userRole", "admin")`. The
engine stored the struct by value but the struct holds the conditions map
by reference, so the stored rule now requires the role and the same
decision flips to `(false, nil)`. -/
theorem claim5_counterexample :
    addRuleH ⟨[[]]⟩ ⟨[]⟩ ⟨"documents", "read", Allow, 0⟩ =
      some (⟨[⟨"documents", "read", Allow, 0⟩]⟩, none) ∧
    isAllowedH ⟨[[]]⟩ ⟨[⟨"documents", "read", Allow, 0⟩]⟩ "documents" "read"
      (some NewContext) = some (true, none) ∧
    isAllowedH (withConditionH ⟨[[]]⟩ ⟨"documents", "read", Allow, 0⟩ "userRole"
        (GoVal.str "admin"))
      ⟨[⟨"documents", "read", Allow, 0⟩]⟩ "documents" "read"
      (some NewContext) = some (false, none) :=
  ⟨rfl, rfl, rfl⟩

/-- Claim C5 as amended: `AddRule` appends a struct copy, so the stored
rule's scalar fields (resource, action, effect) are its own, but the copy
holds the caller's conditions map by reference: a later
`WithCondition` on the original rule object mutates the very map the
engine's stored rule reads, and later decisions see the update. -/
theorem claim5_amended (h : Heap) (e e' : EngineH) (r : RuleRef)
    (key : String) (v : GoVal)
    (hadd : addRuleH h e r = some (e', none))
    (hvalid : r.conditions < h.maps.length) :
    e'.rules = e.rules ++ [r] ∧
    (withConditionH h r key v).get r.conditions =
      mapInsert (h.get r.conditions) key v := by
  constructor
  · unfold addRuleH at hadd
    cases hval : (resolveRule h r).validate with
    | some err => rw [hval] at hadd; simp at hadd
    | none =>
      rw [hval] at hadd
      simp only [Option.some.injEq, Prod.mk.injEq] at hadd
      rw [← hadd.1]
  · exact heap_get_set_self h r.conditions _ hvalid

/-- Witness for C5 (amended) at a concrete input. -/
theorem claim5_amended_witness :
    (withConditionH ⟨[[]]⟩ ⟨"documents", "read", Allow, 0⟩ "userRole"
        (GoVal.str "admin")).get 0 = [("userRole", GoVal.str "admin")] :=
  (claim5_amended ⟨[[]]⟩ ⟨[]⟩ ⟨[⟨"documents", "read", Allow, 0⟩]⟩
    ⟨"documents", "read", Allow, 0⟩ "userRole" (GoVal.str "admin") rfl
    (by decide)).2

namespace Structured

theorem jsonStrings_map (l : List String) :
    jsonStrings (l.map Json.str) = some l := by
  induction l with
  | nil => rfl
  | cons s rest ih => simp [jsonStrings, ih]

theorem value_roundtrip (v : GoVal) (h : threeShape v = true) :
    unmarshalConditionValue (marshalValue v) = v := by
  cases v with
  | str s => rfl
  | strList l =>
    show unmarshalConditionValue (.arr (l.map Json.str)) = .strList l
    simp [unmarshalConditionValue, tryUnmarshalStringList, jsonStrings_map]
  | bool b => rfl
  | null => simp [threeShape] at h
  | ifaceList l => simp [threeShape] at h
  | objVal l => simp [threeShape] at h

theorem unmarshalCondition_marshalCondition (c : Condition) :
    unmarshalCondition (marshalCondition c) =
      some ⟨c.ctype, c.operation,
            unmarshalConditionValue (marshalValue c.value), c.message⟩ := rfl

theorem cond_roundtrip (c : Condition) (h : threeShape c.value = true) :
    unmarshalCondition (marshalCondition c) = some c := by
  rw [unmarshalCondition_marshalCondition, value_roundtrip c.value h]

theorem condList_roundtrip (cs : List (String × Condition))
    (h : ∀ p ∈ cs, threeShape p.2.value = true) :
    unmarshalCondList (cs.map fun p => (p.1, marshalCondition p.2)) = some cs := by
  induction cs with
  | nil => rfl
  | cons p rest ih =>
    obtain ⟨k, c⟩ := p
    have hc := cond_roundtrip c (h (k, c) (List.mem_cons_self _ _))
    have hrest := ih (fun q hq => h q (List.mem_cons_of_mem _ hq))
    simp [unmarshalCondList, hc, hrest]

theorem metaStrings_map (md : List (String × String)) :
    metaStrings (md.map fun p => (p.1, Json.str p.2)) = some md := by
  induction md with
  | nil => rfl
  | cons p rest ih =>
    obtain ⟨k, s⟩ := p
    simp [metaStrings, ih]

theorem unmarshalRule_marshalRule (r : Rule) :
    unmarshalRule (marshalRule r) =
      (unmarshalCondList (r.conditions.map fun p => (p.1, marshalCondition p.2))).bind
        (fun cs => (metaStrings (r.metadata.map fun p => (p.1, Json.str p.2))).bind
          (fun md => some ⟨r.id, r.name, r.description, r.rtype, r.severity,
                           r.resource, r.action, r.effect, cs, md⟩)) := rfl

end Structured

/-- Counterexample to C9: the documentation-style rule `rEx9`, whose single
condition's value is the `[]interface{}{"admin"}` shape, does not survive a
marshal/unmarshal round trip: `UnmarshalJSON` tries `[]string` first, so
the value comes back as `[]string{"admin"}` (`rEx9'`), which is not
deep-equal to the original. The unqualified "serializing then
deserializing a Rule yields a value deep-equal to the original" is
therefore false. -/
theorem claim9_counterexample :
    Structured.unmarshalRule (Structured.marshalRule rEx9) = some rEx9' ∧
    rEx9' ≠ rEx9 :=
  ⟨rfl, by simp [rEx9, rEx9']⟩

/-- Claim C9 as amended: serializing then deserializing a Rule yields a
value deep-equal to the original provided every condition value has one of
the three supported shapes (single string, ordered sequence of strings, or
boolean); and independently a Condition with a value of any of those three
shapes round-trips deep-equal (this part exactly as claimed). -/
theorem claim9_amended :
    (∀ r : Structured.Rule,
      (∀ p ∈ r.conditions, Structured.threeShape p.2.value = true) →
      Structured.unmarshalRule (Structured.marshalRule r) = some r)
    ∧ (∀ c : Structured.Condition, Structured.threeShape c.value = true →
      Structured.unmarshalCondition (Structured.marshalCondition c) = some c) := by
  constructor
  · intro r h
    rw [Structured.unmarshalRule_marshalRule, Structured.condList_roundtrip _ h,
      Structured.metaStrings_map]
    rfl
  · intro c h
    exact Structured.cond_roundtrip c h

/-- Witness for C9 (amended) at a concrete input: a rule exercising all
three supported value shapes round-trips unchanged. -/
theorem claim9_witness :
    Structured.unmarshalRule (Structured.marshalRule rW9) = some rW9 :=
  claim9_amended.1 rW9 (by decide)
